import Mathlib

/-!
Verification of the schema-inference engine of `src/services/schema.service.ts`.

The development shallowly embeds the JavaScript values a MongoDB driver hands
to the service, the `FieldInfo` record type of `src/types/schema.types.ts`,
and the functions `getFieldType`, `analyzeCollectionBySampling` (with its
inner `processField` helper), `analyzeCollection`, `convertMongooseSchema`,
`processMongoosePath`, `convertJsonSchema`, `processJsonSchemaDefinition`,
`getMongooseType` and `convertBsonType` of the service.  All definitions are
computable and structurally recursive, so the kernel can evaluate them on
concrete documents.
-/

set_option autoImplicit false

namespace SchemaService

mutual
/-- A JavaScript/BSON value as it appears in a sampled document.

* `vObjectId` is a native driver `ObjectId` instance: it satisfies
  `value instanceof ObjectId`, and it exposes a `buffer` property that is a
  `Uint8Array` of `byteLength` 12 (which is what the `isObjectIdLike` test in
  `processField` looks at).
* `vObject` is a plain object: an insertion-ordered association list of
  string keys to values (JavaScript object keys are unique; lookup returns
  the first match).  A plain object's `buffer` property, when present, is an
  ordinary `JsValue`; in particular an array-valued `buffer` property is a
  JavaScript `Array` (so `Array.isArray` is true of it) and is not a
  `Uint8Array`.
* `vBuffer` is a Node `Buffer` (`value instanceof Buffer`).  Its numeric
  index entries are not modelled: driver-sampled documents contain BSON
  `Binary` values rather than `Buffer`s, and no claim concerns binary
  fields.
* `vDate` is a `Date` instance (`value instanceof Date`).
* `vUndefined` is the JavaScript `undefined` value; note that
  `typeof undefined` is the string `"undefined"`, not `"object"`. -/
inductive JsValue : Type where
  | vNull : JsValue
  | vUndefined : JsValue
  | vString (s : String) : JsValue
  | vNumber (n : Int) : JsValue
  | vBool (b : Bool) : JsValue
  | vDate : JsValue
  | vBuffer : JsValue
  | vObjectId : JsValue
  | vArray (items : JsItems) : JsValue
  | vObject (fields : JsFields) : JsValue

/-- The element list of a JavaScript array. -/
inductive JsItems : Type where
  | nil : JsItems
  | cons (head : JsValue) (tail : JsItems) : JsItems

/-- The entry list of a plain JavaScript object, in insertion order. -/
inductive JsFields : Type where
  | nil : JsFields
  | cons (key : String) (value : JsValue) (rest : JsFields) : JsFields
end

mutual
/-- The FieldInfo record of `src/types/schema.types.ts`: `type` is always
present; `required`, `items` and `properties` are optional, and the code
additionally attaches optional `values` (enums) and `additionalProperties`
(maps).  An inductive rather than a structure because it recurses through
`properties`. -/
inductive FieldInfo : Type where
  | mk (type : String) (required : Option Bool) (items : Option FieldInfo)
      (properties : Option FieldProps) (values : Option (List String))
      (additionalProperties : Option FieldInfo) : FieldInfo

/-- The `properties` map of an object-typed FieldInfo, in insertion order. -/
inductive FieldProps : Type where
  | nil : FieldProps
  | cons (key : String) (info : FieldInfo) (rest : FieldProps) : FieldProps
end

def FieldInfo.type : FieldInfo → String
  | .mk t _ _ _ _ _ => t

def FieldInfo.required : FieldInfo → Option Bool
  | .mk _ r _ _ _ _ => r

def FieldInfo.items : FieldInfo → Option FieldInfo
  | .mk _ _ i _ _ _ => i

def FieldInfo.properties : FieldInfo → Option FieldProps
  | .mk _ _ _ p _ _ => p

def FieldInfo.values : FieldInfo → Option (List String)
  | .mk _ _ _ _ v _ => v

/-- A FieldInfo object literal carrying only a `type` key, such as
`{ type: 'null' }`. -/
def finfo (t : String) : FieldInfo := .mk t none none none none none

/-- First-match lookup of a key in a plain object (JavaScript property
access `value[key]`; `none` models `undefined` for a missing key). -/
def lookupFields : JsFields → String → Option JsValue
  | .nil, _ => none
  | .cons k v rest, key => if k = key then some v else lookupFields rest key

def itemsLen : JsItems → Nat
  | .nil => 0
  | .cons _ rest => itemsLen rest + 1

/-- The test `value.every(item => typeof item === 'string')`. -/
def itemsAllStrings : JsItems → Bool
  | .nil => true
  | .cons (.vString _) rest => itemsAllStrings rest
  | .cons _ _ => false

/-- The string payloads of an array's elements, in order. -/
def itemsStrings : JsItems → List String
  | .nil => []
  | .cons (.vString s) rest => s :: itemsStrings rest
  | .cons _ rest => itemsStrings rest

/-- JavaScript `Set.prototype.add`: insertion-ordered, ignores duplicates. -/
def jsSetAdd (s : List String) (x : String) : List String :=
  if x ∈ s then s else s ++ [x]

/-- JavaScript `Array.from(new Set(l))`: the distinct elements of `l` in
order of first occurrence. -/
def jsDedup (l : List String) : List String := l.foldl jsSetAdd []

/-- Line 13 of the service: the test `'buffer' in value &&
Array.isArray(value.buffer) && value.buffer.length === 12` on a plain
object. -/
def bufferArray12 (fs : JsFields) : Bool :=
  match lookupFields fs "buffer" with
  | some (.vArray l) => itemsLen l = 12
  | _ => false

/-- Line 14 of the service: the test `value._bsontype === 'ObjectID'` on a
plain object. -/
def bsontypeObjectID (fs : JsFields) : Bool :=
  match lookupFields fs "_bsontype" with
  | some (.vString s) => s = "ObjectID"
  | _ => false

/-- The test `Array.isArray(val) && val.length === 12` (the skip test for
`buffer` properties of ObjectId internals, lines 53 and 303). -/
def isArray12 : JsValue → Bool
  | .vArray l => itemsLen l = 12
  | _ => false

mutual
/-- The function `getFieldType` (schema.service.ts lines 7 to 69), the type
inferencer.

Branch order is the source's: the `null` test, then the ObjectId tests
(`instanceof`, the buffer-array-of-12 shape, the `_bsontype` marker) which
precede `Array.isArray` and the generic object branch, then arrays (with the
all-string enum detection), then objects (`Date`, `Buffer`, a re-check of
the 12-byte buffer shape, and recursion over properties that skips
ObjectId-internal `buffer` entries), and finally the `typeof` switch for
scalars whose `default` arm (reached e.g. by `undefined`) yields `unknown`.
For `vArray`, `vDate`, `vBuffer`, `vObjectId` and scalars the
property-membership tests of lines 13 and 14 are vacuously false, so those
constructors map straight to their branch. -/
def getFieldType : JsValue → FieldInfo
  | .vNull => finfo "null"
  | .vObjectId => finfo "ObjectId"
  | .vArray .nil =>
      .mk "array" none (some (finfo "unknown")) none none none
  | .vArray (.cons x rest) =>
      if itemsAllStrings (.cons x rest) then
        let uniq := jsDedup (itemsStrings (.cons x rest))
        if uniq.length < itemsLen (.cons x rest) ∧ uniq.length ≤ 10 then
          .mk "enum" none none none (some uniq) none
        else
          .mk "array" none (some (getFieldType x)) none none none
      else
        .mk "array" none (some (getFieldType x)) none none none
  | .vObject fs =>
      if bufferArray12 fs || bsontypeObjectID fs then finfo "ObjectId"
      else .mk "object" none none (some (getProps fs)) none none
  | .vDate => finfo "date"
  | .vBuffer => finfo "binary"
  | .vString _ => finfo "string"
  | .vNumber _ => finfo "number"
  | .vBool _ => finfo "boolean"
  | .vUndefined => finfo "unknown"

/-- The property recursion of `getFieldType`'s object branch (lines 50 to
55): every entry is inferred recursively, except that a `buffer` entry
holding a 12-element array is skipped. -/
def getProps : JsFields → FieldProps
  | .nil => .nil
  | .cons k v rest =>
      if k = "buffer" && isArray12 v then getProps rest
      else .cons k (getFieldType v) (getProps rest)
end

/-- First-match lookup in an association list modelling a JavaScript object
used as a map (`obj[k]`; `none` models `undefined`). -/
def alGet {α : Type} : List (String × α) → String → Option α
  | [], _ => none
  | p :: rest, k => if p.1 = k then some p.2 else alGet rest k

/-- Replace the value stored under `k` (in place, preserving entry order). -/
def alReplace {α : Type} : List (String × α) → String → α → List (String × α)
  | [], _, _ => []
  | p :: rest, k, v =>
      if p.1 = k then (k, v) :: alReplace rest k v else p :: alReplace rest k v

/-- JavaScript assignment `obj[k] = v` on an object used as a map: an
existing key keeps its position, a new key is appended in insertion
order. -/
def alSet {α : Type} (m : List (String × α)) (k : String) (v : α) :
    List (String × α) :=
  if (alGet m k).isSome then alReplace m k v else m ++ [(k, v)]

/-- The three accumulator maps of `analyzeCollectionBySampling` (lines 271
to 273): `fields` (path to the set of observed type names), `fieldTypes`
(path to the first FieldInfo recorded for it) and `uniqueValues` (path to
the set of observed string values). -/
structure SampState where
  fields : List (String × List String)
  fieldTypes : List (String × FieldInfo)
  uniqueValues : List (String × List String)

def emptyState : SampState := ⟨[], [], []⟩

/-- Lines 290 to 293 / 308 to 311 / 341 to 344: `if (!fields[fieldPath])`
create empty `fields` and `uniqueValues` sets for the path. -/
def initPath (st : SampState) (fp : String) : SampState :=
  if (alGet st.fields fp).isSome then st
  else { st with fields := alSet st.fields fp [],
                 uniqueValues := alSet st.uniqueValues fp [] }

/-- `path.join('.')`. -/
def dotJoin (path : List String) : String := String.intercalate "." path

/-- The test `typeof value === 'string'`, together with the string payload
when it succeeds. -/
def obsStringOf : JsValue → Option String
  | .vString s => some s
  | _ => none

/-- The observation pattern shared by the top-level document loop (lines
341 to 355) and the subdocument branch of `processField` (lines 308 to
323): initialise the sets for the path, add the inferred type name to
`fields[fieldPath]`, add the value to `uniqueValues[fieldPath]` when it is
a string, and record the FieldInfo in `fieldTypes[fieldPath]` only if the
path has none yet. -/
def observe (st : SampState) (fp : String) (v : JsValue) : SampState :=
  let st1 := initPath st fp
  let ft := getFieldType v
  let st2 := { st1 with
    fields := alSet st1.fields fp (jsSetAdd ((alGet st1.fields fp).getD []) ft.type) }
  let st3 := match obsStringOf v with
    | some s => { st2 with
        uniqueValues := alSet st2.uniqueValues fp
          (jsSetAdd ((alGet st2.uniqueValues fp).getD []) s) }
    | none => st2
  match alGet st3.fieldTypes fp with
  | some _ => st3
  | none => { st3 with fieldTypes := alSet st3.fieldTypes fp ft }

/-- The `isObjectIdLike` branch of `processField` (lines 288 to 297):
initialise the sets for the joined path, add `'ObjectId'` to the type set,
and assign `fieldTypes[fieldPath] = { type: 'ObjectId' }` unconditionally
(line 295), overwriting any earlier record. -/
def registerOid (st : SampState) (fp : String) : SampState :=
  let st1 := initPath st fp
  let st2 := { st1 with
    fields := alSet st1.fields fp
      (jsSetAdd ((alGet st1.fields fp).getD []) "ObjectId") }
  { st2 with fieldTypes := alSet st2.fieldTypes fp (finfo "ObjectId") }

mutual
/-- The helper `processField` of `analyzeCollectionBySampling` (lines 276
to 334).

* `null` and `undefined` return immediately (line 277).
* The `isObjectIdLike` test (lines 280 to 286) asks for a `buffer`
  property that is a `Uint8Array` of `byteLength` 12; among the modelled
  values only a native ObjectId instance carries one (a plain object's
  array-valued `buffer` is an `Array`, not a `Uint8Array`).  The branch
  initialises the sets, adds `'ObjectId'` to `fields[fieldPath]` and
  assigns `fieldTypes[fieldPath]` unconditionally (line 295), overwriting
  any earlier record.
* Plain objects that are not arrays and not `Date`s are walked entry by
  entry (lines 299 to 327), skipping ObjectId-internal `buffer` entries,
  observing each entry at the extended dotted path and recursing into its
  value.  A `Date` is excluded by the `instanceof Date` test; a `Buffer`
  does enter this branch, but its (unmodelled, see `JsValue`) numeric
  entries contribute nothing here.
* A non-empty array recurses into each element at the same path (lines 328
  to 333); an empty array falls through, which equals iterating zero
  elements.
* Scalars fall through every branch and return. -/
def processField (st : SampState) (value : JsValue) (path : List String) :
    SampState :=
  match value with
  | .vNull => st
  | .vUndefined => st
  | .vObjectId => registerOid st (dotJoin path)
  | .vObject fs => processEntries st fs path
  | .vArray items => processItems st items path
  | .vDate => st
  | .vBuffer => st
  | .vString _ => st
  | .vNumber _ => st
  | .vBool _ => st

/-- The `for (const [key, val] of Object.entries(value))` loop of the
subdocument branch (lines 301 to 327). -/
def processEntries (st : SampState) (fs : JsFields) (path : List String) :
    SampState :=
  match fs with
  | .nil => st
  | .cons k v rest =>
      if k = "buffer" && isArray12 v then processEntries st rest path
      else
        let newPath := path ++ [k]
        let st1 := observe st (dotJoin newPath) v
        let st2 := processField st1 v newPath
        processEntries st2 rest path

/-- The `for (const item of value)` loop of the array branch (lines 330 to
332). -/
def processItems (st : SampState) (items : JsItems) (path : List String) :
    SampState :=
  match items with
  | .nil => st
  | .cons x rest => processItems (processField st x path) rest path
end

/-- The `for (const [key, value] of Object.entries(doc))` loop that
analyses one document (lines 338 to 360): every top-level key except `_id`
is observed at path `[key]` and then walked with `processField`. -/
def processDoc (st : SampState) (doc : JsFields) : SampState :=
  match doc with
  | .nil => st
  | .cons k v rest =>
      if k = "_id" then processDoc st rest
      else
        let st1 := observe st k v
        let st2 := processField st1 v [k]
        processDoc st2 rest

/-- The accumulator state after the `for (const doc of documents)` loop
(lines 337 to 361). -/
def accumState (documents : List JsFields) : SampState :=
  documents.foldl processDoc emptyState

/-- The test `doc[key] !== undefined` of lines 373 and 381: the dotted path
string is used verbatim as a top-level key; a missing key gives
`undefined`, a present key counts unless its value is the `undefined`
value.  A present `null` counts as defined. -/
def docKeyDefined (doc : JsFields) (key : String) : Bool :=
  match lookupFields doc key with
  | some .vUndefined => false
  | some _ => true
  | none => false

/-- JavaScript spread `{...fieldTypes[key], required}` (line 379 to 382);
when the looked-up FieldInfo is missing the spread of `undefined`
contributes nothing (this never happens: `fieldTypes` receives every path
`fields` does). -/
def spreadRequired (o : Option FieldInfo) (req : Bool) : FieldInfo :=
  match o with
  | some (.mk t _ it pr vs ap) => .mk t (some req) it pr vs ap
  | none => .mk "" (some req) none none none none

/-- The per-path finalisation step of lines 365 to 383.  The comparison
`values.length < documents.length * 0.5` is rendered as
`2 * values.length < documents.length`, which is equivalent over the
integers. -/
def finalizeEntry (documents : List JsFields) (st : SampState) (key : String)
    (types : List String) : FieldInfo :=
  if types.contains "string" && (alGet st.uniqueValues key).isSome then
    if ((alGet st.uniqueValues key).getD []).length ≤ 10
        ∧ 2 * ((alGet st.uniqueValues key).getD []).length < documents.length then
      .mk "enum" (some (documents.all (fun d => docKeyDefined d key))) none none
        (some ((alGet st.uniqueValues key).getD [])) none
    else spreadRequired (alGet st.fieldTypes key)
      (documents.all (fun d => docKeyDefined d key))
  else spreadRequired (alGet st.fieldTypes key)
    (documents.all (fun d => docKeyDefined d key))

/-- The `for (const [key, types] of Object.entries(fields))` finalisation
loop (lines 363 to 383), producing `schemaFields` in the insertion order of
`fields`. -/
def schemaFieldsOf (documents : List JsFields) (st : SampState) :
    List (String × FieldInfo) :=
  st.fields.map (fun p => (p.1, finalizeEntry documents st p.1 p.2))

/-- The CollectionSchema record of `src/types/schema.types.ts`. -/
structure CollectionSchema where
  collectionName : String
  fields : List (String × FieldInfo)
  totalDocuments : Nat

/-- The function `analyzeCollectionBySampling` (lines 263 to 390).  The two
I/O reads are abstracted into parameters: `documents` is the bounded sample
returned by `collection.find().limit(100).toArray()` and `totalDocuments`
the result of `collection.countDocuments()`. -/
def analyzeCollectionBySampling (documents : List JsFields)
    (totalDocuments : Nat) (collectionName : String) : CollectionSchema :=
  let st := accumState documents
  { collectionName := collectionName
    fields := schemaFieldsOf documents st
    totalDocuments := totalDocuments }

/-- Convenience constructor for object literals. -/
def jf : List (String × JsValue) → JsFields
  | [] => .nil
  | p :: rest => .cons p.1 p.2 (jf rest)

/-- Convenience constructor for array literals. -/
def ja : List JsValue → JsItems
  | [] => .nil
  | v :: rest => .cons v (ja rest)

/-- Lookup in a FieldInfo `properties` map. -/
def lookupProps : FieldProps → String → Option FieldInfo
  | .nil, _ => none
  | .cons k fi rest, key => if k = key then some fi else lookupProps rest key

/-- Wrap a value in `ks.length` single-entry objects, one nesting level per
key of `ks`. -/
def nest : List String → JsValue → JsValue
  | [], v => v
  | k :: ks, v => .vObject (.cons k (nest ks v) .nil)

/-- Drill into a FieldInfo along a key path through `properties`. -/
def fieldAt : FieldInfo → List String → Option FieldInfo
  | fi, [] => some fi
  | fi, k :: ks =>
      match fi.properties with
      | some ps =>
          match lookupProps ps k with
          | some fj => fieldAt fj ks
          | none => none
      | none => none

/-- The identifier shapes named by the spec: a native ObjectId instance, or
an object whose `buffer` property is a 12-element byte sequence. -/
def identifierShaped : JsValue → Bool
  | .vObjectId => true
  | .vObject fs => bufferArray12 fs
  | _ => false

/-- Follows the spec's words (section 4.4 step 1), for comparison with the
source's `doc[key] !== undefined` test: resolve a dotted path step by step,
short-circuiting to absent the moment an intermediate segment is missing or
not an object. -/
def specResolvePath : JsValue → List String → Option JsValue
  | v, [] => some v
  | .vObject fs, k :: ks =>
      match lookupFields fs k with
      | some w => specResolvePath w ks
      | none => none
  | _, _ :: _ => none

/-- Follows the spec's words: the path, given as its dot-separated
segments, resolves step by step to a defined, non-null value in the
document. -/
def specResolvesDefined (d : JsFields) (segments : List String) : Bool :=
  match specResolvePath (.vObject d) segments with
  | some .vNull => false
  | some .vUndefined => false
  | some _ => true
  | none => false

/-- The spec's section 8 scenario: three sampled documents
`{status:"active"}, {status:"inactive"}, {status:"active"}`. -/
def docs3 : List JsFields :=
  [jf [("status", .vString "active")], jf [("status", .vString "inactive")],
   jf [("status", .vString "active")]]

/-- One sampled document `{a: {b: 1}, s: null}`. -/
def docsNested : List JsFields :=
  [jf [("a", .vObject (jf [("b", .vNumber 1)])), ("s", .vNull)]]

/-- Three sampled documents in which `status` is observed exactly once. -/
def docsSingleObs : List JsFields :=
  [jf [("status", .vString "a")], jf [("x", .vNumber 1)], jf [("x", .vNumber 2)]]

/-- Four sampled documents in which `x` is observed as a number three times
and as a string once. -/
def docsMixed : List JsFields :=
  [jf [("x", .vNumber 1)], jf [("x", .vString "a")], jf [("x", .vNumber 2)],
   jf [("x", .vNumber 3)]]

/-- A structurally identifier-shaped value: an object whose `buffer`
property is a 12-element array of bytes. -/
def oidShaped : JsValue :=
  .vObject (jf [("buffer",
    .vArray (ja (([0, 1, 2, 3, 4, 5, 6, 7, 8, 9, 10, 11] : List Int).map .vNumber)))])

/-- One registration event at a dotted path during the walk of one value:
either the `isObjectIdLike` branch of `processField` fired (`oid`), or a
value was observed for the path (`obs`). -/
inductive ObsEvent : Type where
  | oid : ObsEvent
  | obs (v : JsValue) : ObsEvent

/-- The type name an event adds to the path's `fields` set. -/
def eventType : ObsEvent → String
  | .oid => "ObjectId"
  | .obs v => (getFieldType v).type

/-- The string an event adds to the path's `uniqueValues` set, if any. -/
def eventString : ObsEvent → Option String
  | .oid => none
  | .obs v => obsStringOf v

def isOidEvent : ObsEvent → Bool
  | .oid => true
  | .obs _ => false

/-- The first observed value among a list of events, ignoring `oid`
markers. -/
def firstObsValue : List ObsEvent → Option JsValue
  | [] => none
  | .oid :: rest => firstObsValue rest
  | .obs v :: _ => some v

mutual
/-- The sequence of registration events `processField value path` produces
at dotted path `key`, read off the walker's traversal order. -/
def eventsV (value : JsValue) (path : List String) (key : String) :
    List ObsEvent :=
  match value with
  | .vNull => []
  | .vUndefined => []
  | .vObjectId => if dotJoin path = key then [.oid] else []
  | .vObject fs => eventsF fs path key
  | .vArray items => eventsI items path key
  | .vDate => []
  | .vBuffer => []
  | .vString _ => []
  | .vNumber _ => []
  | .vBool _ => []

/-- Events produced by the subdocument entry loop. -/
def eventsF (fs : JsFields) (path : List String) (key : String) :
    List ObsEvent :=
  match fs with
  | .nil => []
  | .cons k v rest =>
      if k = "buffer" && isArray12 v then eventsF rest path key
      else
        ((if dotJoin (path ++ [k]) = key then [.obs v] else [])
          ++ eventsV v (path ++ [k]) key) ++ eventsF rest path key

/-- Events produced by the array element loop. -/
def eventsI (items : JsItems) (path : List String) (key : String) :
    List ObsEvent :=
  match items with
  | .nil => []
  | .cons x rest => eventsV x path key ++ eventsI rest path key
end

/-- Events the top-level loop over one document produces at `key`. -/
def eventsDoc (doc : JsFields) (key : String) : List ObsEvent :=
  match doc with
  | .nil => []
  | .cons k v rest =>
      if k = "_id" then eventsDoc rest key
      else
        ((if k = key then [.obs v] else []) ++ eventsV v [k] key)
          ++ eventsDoc rest key

/-- Events the whole sample produces at `key`, document by document. -/
def eventsDocs (documents : List JsFields) (key : String) : List ObsEvent :=
  documents.flatMap (fun d => eventsDoc d key)

/-- The strings observed at a path across the sample, in walk order. -/
def stringsObserved (documents : List JsFields) (key : String) : List String :=
  (eventsDocs documents key).filterMap eventString

/-- Fold model of the `fields[key]` type-name set under a list of
events. -/
def typesFold (init : List String) (evs : List ObsEvent) : List String :=
  evs.foldl (fun acc e => jsSetAdd acc (eventType e)) init

/-- Fold model of the `uniqueValues[key]` set under a list of events. -/
def uvFold (init : List String) (evs : List ObsEvent) : List String :=
  evs.foldl (fun acc e =>
    match eventString e with
    | some s => jsSetAdd acc s
    | none => acc) init

/-- Fold model of the `fieldTypes[key]` entry under a list of events: an
observation fills an empty slot (set-if-absent), an `oid` event overwrites
unconditionally. -/
def ftFold (init : Option FieldInfo) (evs : List ObsEvent) : Option FieldInfo :=
  evs.foldl (fun acc e =>
    match e with
    | .oid => some (finfo "ObjectId")
    | .obs v =>
        match acc with
        | some fi => some fi
        | none => some (getFieldType v)) init

/-- Merge model of a `fields` map entry: untouched when no event occurs,
otherwise initialised to the empty set and folded. -/
def mergeTypes (o : Option (List String)) (evs : List ObsEvent) :
    Option (List String) :=
  match evs with
  | [] => o
  | _ => some (typesFold (o.getD []) evs)

/-- Merge model of a `uniqueValues` map entry. -/
def mergeUV (o : Option (List String)) (evs : List ObsEvent) :
    Option (List String) :=
  match evs with
  | [] => o
  | _ => some (uvFold (o.getD []) evs)

/-- The joint-initialisation invariant of the accumulator: `fields` and
`uniqueValues` always hold exactly the same keys (they are only ever
created together by `initPath`). -/
def inv (st : SampState) : Prop :=
  ∀ k, (alGet st.fields k).isSome ↔ (alGet st.uniqueValues k).isSome

/-- The accumulator entries of `st'` at `key` are those of `st` after
folding in the given event sequence. -/
def MergedAt (st st' : SampState) (evs : List ObsEvent) (key : String) : Prop :=
  alGet st'.fields key = mergeTypes (alGet st.fields key) evs
  ∧ alGet st'.uniqueValues key = mergeUV (alGet st.uniqueValues key) evs
  ∧ alGet st'.fieldTypes key = ftFold (alGet st.fieldTypes key) evs

/-- A Mongoose schema path object, as read by `processMongoosePath`:
`inst` models `path.instance` (`instance` is a reserved word in Lean),
`isRequired` models `path.isRequired || false`, `caster` the array element
path, `schema` the subdocument schema's `paths`, and `schemaType` the map
value path `path.$__schemaType`. -/
inductive MongoosePath : Type where
  | mk (inst : Option String) (isRequired : Bool)
      (caster : Option MongoosePath)
      (schema : Option (List (String × MongoosePath)))
      (schemaType : Option MongoosePath) : MongoosePath

/-- A registered Mongoose model's schema: its `paths` map. -/
structure MongooseSchema where
  paths : List (String × MongoosePath)

/-- The function `getMongooseType` (lines 230 to 244): switch on the
lowercased `instance` string, `default` giving `unknown` (also reached when
`instance` is absent). -/
def getMongooseType (p : MongoosePath) : String :=
  match p with
  | .mk inst _ _ _ _ =>
      match inst.map String.toLower with
      | some "objectid" => "ObjectId"
      | some "number" => "number"
      | some "string" => "string"
      | some "boolean" => "boolean"
      | some "date" => "date"
      | some "buffer" => "binary"
      | some "array" => "array"
      | some "map" => "object"
      | some "object" => "object"
      | _ => "unknown"

mutual
/-- The function `processMongoosePath` (lines 126 to 170).  Two unreachable
corners of the source are modelled conservatively: an `embedded` path with
no `schema` object and a `map` path with no `$__schemaType` would make the
source throw on a property access (real Mongoose schemas always carry
them); the model returns empty properties, resp. an `unknown` additional
property, there. -/
def processMongoosePath (p : MongoosePath) : FieldInfo :=
  match p with
  | .mk inst isRequired caster schema schemaType =>
      if inst.map String.toLower = some "array" then
        .mk "array" (some isRequired)
          (some (match caster with
            | some c => processMongoosePath c
            | none => finfo "unknown")) none none none
      else if inst.map String.toLower = some "embedded" || schema.isSome then
        .mk "object" (some isRequired) none
          (some (match schema with
            | some s => processMongoosePaths s
            | none => .nil)) none none
      else if inst.map String.toLower = some "map" then
        .mk "object" (some isRequired) none (some .nil) none
          (some (match schemaType with
            | some t => processMongoosePath t
            | none => finfo "unknown"))
      else
        .mk (getMongooseType p) (some isRequired) none none none none

/-- The subdocument loop of `processMongoosePath` (lines 143 to 146),
skipping the `_id` path. -/
def processMongoosePaths (l : List (String × MongoosePath)) : FieldProps :=
  match l with
  | [] => .nil
  | (k, p) :: rest =>
      if k = "_id" then processMongoosePaths rest
      else .cons k (processMongoosePath p) (processMongoosePaths rest)
end

/-- The loop of `convertMongooseSchema` (lines 109 to 115), skipping
`_id`. -/
def convertMongooseFields (l : List (String × MongoosePath)) :
    List (String × FieldInfo) :=
  match l with
  | [] => []
  | (k, p) :: rest =>
      if k = "_id" then convertMongooseFields rest
      else (k, processMongoosePath p) :: convertMongooseFields rest

/-- The function `convertMongooseSchema` (lines 100 to 124): fields from
the schema's paths, `totalDocuments` hard-coded to 0 (the source comment
reads "This could be populated by querying the actual count"). -/
def convertMongooseSchema (mongooseSchema : MongooseSchema)
    (collectionName : String) : CollectionSchema :=
  { collectionName := collectionName
    fields := convertMongooseFields mongooseSchema.paths
    totalDocuments := 0 }

/-- A `$jsonSchema` property definition as read by
`processJsonSchemaDefinition`. -/
inductive JsonSchemaDef : Type where
  | mk (type : Option String) (bsonType : Option String)
      (items : Option JsonSchemaDef)
      (properties : Option (List (String × JsonSchemaDef)))
      (required : List String)
      (additionalProperties : Option JsonSchemaDef) : JsonSchemaDef

/-- The `$jsonSchema` validator object: `properties` models
`jsonSchema.properties || {}` and `required` models
`jsonSchema.required || []`. -/
structure JsonSchema where
  properties : List (String × JsonSchemaDef)
  required : List String

/-- JavaScript `a || b` on possibly-absent strings (an empty string is
falsy). -/
def jsOrString (a b : Option String) : Option String :=
  match a with
  | some s => if s = "" then b else some s
  | none => b

/-- The function `convertBsonType` (lines 246 to 261); the `default` arm
(also reached when the argument is absent) gives `unknown`. -/
def convertBsonType (bsonType : Option String) : String :=
  match bsonType with
  | some "objectId" => "ObjectId"
  | some "int" => "number"
  | some "long" => "number"
  | some "double" => "number"
  | some "decimal" => "number"
  | some "string" => "string"
  | some "bool" => "boolean"
  | some "date" => "date"
  | some "binData" => "binary"
  | some "array" => "array"
  | some "object" => "object"
  | _ => "unknown"

mutual
/-- The function `processJsonSchemaDefinition` (lines 190 to 228). -/
def processJsonSchemaDefinition (d : JsonSchemaDef) (isRequired : Bool) :
    FieldInfo :=
  match d with
  | .mk ty bsonType items properties required additionalProperties =>
      if ty = some "array" then
        .mk "array" (some isRequired)
          (some (match items with
            | some i => processJsonSchemaDefinition i false
            | none => finfo "unknown")) none none none
      else if ty = some "object" then
        .mk "object" (some isRequired) none
          (some (match properties with
            | some ps => processJsonSchemaProps ps required
            | none => .nil)) none
          (match additionalProperties with
            | some a => some (processJsonSchemaDefinition a false)
            | none => none)
      else
        .mk (convertBsonType (jsOrString bsonType ty)) (some isRequired)
          none none none none

/-- The object-property loop of `processJsonSchemaDefinition` (lines 206 to
211): each property is required iff its key is listed in the definition's
`required` array; `_id` is not skipped here. -/
def processJsonSchemaProps (l : List (String × JsonSchemaDef))
    (required : List String) : FieldProps :=
  match l with
  | [] => .nil
  | (k, d) :: rest =>
      .cons k (processJsonSchemaDefinition d (required.contains k))
        (processJsonSchemaProps rest required)
end

/-- The loop of `convertJsonSchema` (lines 175 to 181), skipping `_id`. -/
def convertJsonFields (l : List (String × JsonSchemaDef))
    (required : List String) : List (String × FieldInfo) :=
  match l with
  | [] => []
  | (k, d) :: rest =>
      if k = "_id" then convertJsonFields rest required
      else (k, processJsonSchemaDefinition d (required.contains k))
        :: convertJsonFields rest required

/-- The function `convertJsonSchema` (lines 172 to 188): `totalDocuments`
hard-coded to 0. -/
def convertJsonSchema (jsonSchema : JsonSchema) (collectionName : String) :
    CollectionSchema :=
  { collectionName := collectionName
    fields := convertJsonFields jsonSchema.properties jsonSchema.required
    totalDocuments := 0 }

/-- Outcome of one of `analyzeCollection`'s guarded lookups: the `try`
block threw (`throws`), it succeeded but found no declared schema
(`notFound`), or it found one (`found`). -/
inductive LookupResult (α : Type) : Type where
  | throws : LookupResult α
  | notFound : LookupResult α
  | found (a : α) : LookupResult α

/-- The environment `analyzeCollection` (lines 71 to 99) reads: the
Mongoose model lookup `mongoose.models[collectionName]` (which may throw if
Mongoose is unavailable), the `collection.options()` validator lookup
(which may throw or carry no `validator.$jsonSchema`), and the document
sample and count the sampling fallback reads. -/
structure CollectionEnv where
  mongooseModel : LookupResult MongooseSchema
  validatorJsonSchema : LookupResult JsonSchema
  documents : List JsFields
  countDocuments : Nat

/-- The function `analyzeCollection` (lines 71 to 99): try the Mongoose
model first (any throw is swallowed by the surrounding `catch`), then the
`$jsonSchema` validator (likewise), then fall back to sampling.  The
function is total: no lookup failure escapes to the caller. -/
def analyzeCollection (env : CollectionEnv) (collectionName : String) :
    CollectionSchema :=
  match env.mongooseModel with
  | .found m => convertMongooseSchema m collectionName
  | _ =>
      match env.validatorJsonSchema with
      | .found j => convertJsonSchema j collectionName
      | _ => analyzeCollectionBySampling env.documents env.countDocuments
          collectionName

/-- An environment in which both declared-schema lookups throw. -/
def envBothThrow : CollectionEnv :=
  { mongooseModel := .throws
    validatorJsonSchema := .throws
    documents := docs3
    countDocuments := 3 }

/-! ## Theorems -/

theorem alGet_alReplace_self {α : Type} (m : List (String × α)) (k : String)
    (v : α) (h : (alGet m k).isSome) : alGet (alReplace m k v) k = some v := by
  induction m with
  | nil => simp [alGet] at h
  | cons p rest ih =>
      by_cases hp : p.1 = k
      · simp [alReplace, alGet, hp]
      · simp only [alReplace, if_neg hp, alGet] at h ⊢
        exact ih h

theorem alGet_alReplace_ne {α : Type} (m : List (String × α)) (k : String)
    (v : α) (k' : String) (h : k' ≠ k) :
    alGet (alReplace m k v) k' = alGet m k' := by
  induction m with
  | nil => rfl
  | cons p rest ih =>
      by_cases hp : p.1 = k
      · have hq : ¬(k = k') := fun hh => h hh.symm
        subst hp
        simp [alReplace, alGet, hq, ih]
      · by_cases hq : p.1 = k'
        · simp [alReplace, alGet, hp, hq, h]
        · simp [alReplace, alGet, hp, hq, ih]

theorem alGet_append_of_isSome {α : Type} (m l : List (String × α))
    (k : String) (h : (alGet m k).isSome) : alGet (m ++ l) k = alGet m k := by
  induction m with
  | nil => simp [alGet] at h
  | cons p rest ih =>
      by_cases hp : p.1 = k
      · simp [alGet, hp]
      · simp only [alGet, if_neg hp] at h ⊢
        exact ih h

theorem alGet_append_of_none {α : Type} (m l : List (String × α))
    (k : String) (h : alGet m k = none) : alGet (m ++ l) k = alGet l k := by
  induction m with
  | nil => rfl
  | cons p rest ih =>
      by_cases hp : p.1 = k
      · simp [alGet, hp] at h
      · simp only [alGet, if_neg hp] at h ⊢
        exact ih h

theorem alGet_alSet {α : Type} (m : List (String × α)) (k : String) (v : α)
    (k' : String) :
    alGet (alSet m k v) k' = if k' = k then some v else alGet m k' := by
  unfold alSet
  by_cases hm : (alGet m k).isSome
  · simp only [hm, if_true]
    by_cases hk : k' = k
    · subst hk
      simp [alGet_alReplace_self m k' v hm]
    · simp [alGet_alReplace_ne m k v k' hk, hk]
  · simp only [hm, if_false, Bool.false_eq_true]
    by_cases hk : k' = k
    · subst hk
      rw [alGet_append_of_none m _ k' (by
        cases h' : alGet m k' with
        | some x => rw [h'] at hm; simp at hm
        | none => rfl)]
      simp [alGet]
    · cases h' : alGet m k' with
      | some x =>
          rw [alGet_append_of_isSome m _ k' (by rw [h']; rfl), h']
          simp [hk]
      | none =>
          rw [alGet_append_of_none m _ k' h']
          simp [alGet, hk, h', Ne.symm hk]

theorem alGet_alSet_self {α : Type} (m : List (String × α)) (k : String)
    (v : α) : alGet (alSet m k v) k = some v := by
  simp [alGet_alSet]

theorem initPath_fieldTypes (st : SampState) (fp key : String) :
    alGet (initPath st fp).fieldTypes key = alGet st.fieldTypes key := by
  unfold initPath
  split <;> rfl

theorem observe_spec (st : SampState) (fp : String) (v : JsValue)
    (key : String) (hinv : inv st) :
    (alGet (observe st fp v).fields key =
      if key = fp then
        some (jsSetAdd ((alGet st.fields fp).getD []) (getFieldType v).type)
      else alGet st.fields key)
    ∧ (alGet (observe st fp v).uniqueValues key =
      if key = fp then
        some (match obsStringOf v with
          | some s => jsSetAdd ((alGet st.uniqueValues fp).getD []) s
          | none => (alGet st.uniqueValues fp).getD [])
      else alGet st.uniqueValues key)
    ∧ (alGet (observe st fp v).fieldTypes key =
      if key = fp then some ((alGet st.fieldTypes fp).getD (getFieldType v))
      else alGet st.fieldTypes key) := by
  have huv : ¬(alGet st.fields fp).isSome → alGet st.uniqueValues fp = none := by
    intro h
    cases h' : alGet st.uniqueValues fp with
    | none => rfl
    | some u => exact absurd ((hinv fp).mpr (by rw [h']; rfl)) h
  by_cases hf : (alGet st.fields fp).isSome <;>
    cases hs : obsStringOf v <;>
      cases hft : alGet st.fieldTypes fp <;>
        refine ⟨?_, ?_, ?_⟩ <;>
          simp [observe, initPath, hf, hs, hft, alGet_alSet, huv,
            initPath_fieldTypes] <;>
            by_cases hk : key = fp <;>
              simp_all [alGet_alSet]
  all_goals
    obtain ⟨u, hu⟩ := Option.isSome_iff_exists.mp ((hinv fp).mp hf)
    simp [hu]

theorem registerOid_spec (st : SampState) (fp : String) (key : String)
    (hinv : inv st) :
    (alGet (registerOid st fp).fields key =
      if key = fp then some (jsSetAdd ((alGet st.fields fp).getD []) "ObjectId")
      else alGet st.fields key)
    ∧ (alGet (registerOid st fp).uniqueValues key =
      if key = fp then some ((alGet st.uniqueValues fp).getD [])
      else alGet st.uniqueValues key)
    ∧ (alGet (registerOid st fp).fieldTypes key =
      if key = fp then some (finfo "ObjectId")
      else alGet st.fieldTypes key) := by
  have huv : ¬(alGet st.fields fp).isSome → alGet st.uniqueValues fp = none := by
    intro h
    cases h' : alGet st.uniqueValues fp with
    | none => rfl
    | some u => exact absurd ((hinv fp).mpr (by rw [h']; rfl)) h
  by_cases hf : (alGet st.fields fp).isSome <;>
    refine ⟨?_, ?_, ?_⟩ <;>
      simp [registerOid, initPath, hf, alGet_alSet, huv] <;>
        by_cases hk : key = fp <;>
          simp_all [alGet_alSet]
  all_goals
    obtain ⟨u, hu⟩ := Option.isSome_iff_exists.mp ((hinv fp).mp hf)
    simp [hu]

theorem observe_inv (st : SampState) (fp : String) (v : JsValue)
    (hinv : inv st) : inv (observe st fp v) := by
  intro k
  obtain ⟨h1, h2, -⟩ := observe_spec st fp v k hinv
  rw [h1, h2]
  by_cases hk : k = fp
  · simp [hk]
  · simp [hk, hinv k]

theorem registerOid_inv (st : SampState) (fp : String) (hinv : inv st) :
    inv (registerOid st fp) := by
  intro k
  obtain ⟨h1, h2, -⟩ := registerOid_spec st fp k hinv
  rw [h1, h2]
  by_cases hk : k = fp
  · simp [hk]
  · simp [hk, hinv k]

theorem emptyState_inv : inv emptyState := by
  intro k
  constructor <;> (intro h; exact h)

mutual
theorem processField_inv (value : JsValue) :
    ∀ st path, inv st → inv (processField st value path) := fun st path hinv => by
  cases value with
  | vNull => exact hinv
  | vUndefined => exact hinv
  | vObjectId => exact registerOid_inv st (dotJoin path) hinv
  | vObject fs => exact processEntries_inv fs st path hinv
  | vArray items => exact processItems_inv items st path hinv
  | vDate => exact hinv
  | vBuffer => exact hinv
  | vString s => exact hinv
  | vNumber n => exact hinv
  | vBool b => exact hinv

theorem processEntries_inv (fs : JsFields) :
    ∀ st path, inv st → inv (processEntries st fs path) := fun st path hinv => by
  cases fs with
  | nil => exact hinv
  | cons k v rest =>
      by_cases hskip : (k = "buffer" && isArray12 v) = true
      · simp only [processEntries, if_pos hskip]
        exact processEntries_inv rest st path hinv
      · simp only [processEntries, if_neg hskip]
        exact processEntries_inv rest _ path
          (processField_inv v _ _ (observe_inv st _ v hinv))

theorem processItems_inv (items : JsItems) :
    ∀ st path, inv st → inv (processItems st items path) := fun st path hinv => by
  cases items with
  | nil => exact hinv
  | cons x rest =>
      exact processItems_inv rest _ path (processField_inv x st path hinv)
end

theorem processDoc_inv (doc : JsFields) :
    ∀ st, inv st → inv (processDoc st doc) := fun st h => by
  cases doc with
  | nil => exact h
  | cons k v rest =>
      by_cases hk : k = "_id"
      · simp only [processDoc, if_pos hk]
        exact processDoc_inv rest st h
      · simp only [processDoc, if_neg hk]
        exact processDoc_inv rest _ (processField_inv v _ _ (observe_inv st k v h))

theorem accumFold_inv (docs : List JsFields) :
    ∀ st, inv st → inv (docs.foldl processDoc st) := by
  induction docs with
  | nil => intro st h; exact h
  | cons d rest ih => intro st h; exact ih _ (processDoc_inv d st h)

theorem accumState_inv (docs : List JsFields) : inv (accumState docs) :=
  accumFold_inv docs emptyState emptyState_inv

theorem typesFold_append (init : List String) (e1 e2 : List ObsEvent) :
    typesFold init (e1 ++ e2) = typesFold (typesFold init e1) e2 := by
  simp [typesFold, List.foldl_append]

theorem uvFold_append (init : List String) (e1 e2 : List ObsEvent) :
    uvFold init (e1 ++ e2) = uvFold (uvFold init e1) e2 := by
  simp [uvFold, List.foldl_append]

theorem ftFold_append (init : Option FieldInfo) (e1 e2 : List ObsEvent) :
    ftFold init (e1 ++ e2) = ftFold (ftFold init e1) e2 := by
  simp [ftFold, List.foldl_append]

theorem mergeTypes_append (o : Option (List String)) (e1 e2 : List ObsEvent) :
    mergeTypes (mergeTypes o e1) e2 = mergeTypes o (e1 ++ e2) := by
  cases e1 with
  | nil => simp [mergeTypes]
  | cons x r =>
      cases e2 with
      | nil => simp [mergeTypes]
      | cons y s =>
          simp only [mergeTypes, List.cons_append, Option.getD_some]
          rw [← typesFold_append]
          simp

theorem mergeUV_append (o : Option (List String)) (e1 e2 : List ObsEvent) :
    mergeUV (mergeUV o e1) e2 = mergeUV o (e1 ++ e2) := by
  cases e1 with
  | nil => simp [mergeUV]
  | cons x r =>
      cases e2 with
      | nil => simp [mergeUV]
      | cons y s =>
          simp only [mergeUV, List.cons_append, Option.getD_some]
          rw [← uvFold_append]
          simp

theorem MergedAt_refl (st : SampState) (key : String) :
    MergedAt st st [] key := ⟨rfl, rfl, rfl⟩

theorem MergedAt_trans {st1 st2 st3 : SampState} {e1 e2 : List ObsEvent}
    {key : String} (h1 : MergedAt st1 st2 e1 key)
    (h2 : MergedAt st2 st3 e2 key) : MergedAt st1 st3 (e1 ++ e2) key := by
  obtain ⟨a1, b1, c1⟩ := h1
  obtain ⟨a2, b2, c2⟩ := h2
  refine ⟨?_, ?_, ?_⟩
  · rw [a2, a1, mergeTypes_append]
  · rw [b2, b1, mergeUV_append]
  · rw [c2, c1, ← ftFold_append]

theorem observe_merged (st : SampState) (fp : String) (v : JsValue)
    (key : String) (hinv : inv st) :
    MergedAt st (observe st fp v) (if fp = key then [.obs v] else []) key := by
  obtain ⟨h1, h2, h3⟩ := observe_spec st fp v key hinv
  by_cases hk : fp = key
  · subst hk
    simp only [if_pos rfl]
    refine ⟨?_, ?_, ?_⟩
    · rw [h1]
      simp [mergeTypes, typesFold, eventType]
    · rw [h2]
      cases hs : obsStringOf v <;>
        simp [mergeUV, uvFold, eventString, hs]
    · rw [h3]
      cases hft : alGet st.fieldTypes fp <;>
        simp [ftFold, hft]
  · have hk' : ¬(key = fp) := fun h => hk h.symm
    simp only [if_neg hk] at h1 h2 h3 ⊢
    rw [if_neg hk'] at h1
    exact ⟨h1, by rw [if_neg hk'] at h2; exact h2, by rw [if_neg hk'] at h3; exact h3⟩

theorem registerOid_merged (st : SampState) (fp : String) (key : String)
    (hinv : inv st) :
    MergedAt st (registerOid st fp) (if fp = key then [.oid] else []) key := by
  obtain ⟨h1, h2, h3⟩ := registerOid_spec st fp key hinv
  by_cases hk : fp = key
  · subst hk
    simp only [if_pos rfl]
    refine ⟨?_, ?_, ?_⟩
    · rw [h1]
      simp [mergeTypes, typesFold, eventType]
    · rw [h2]
      simp [mergeUV, uvFold, eventString]
    · rw [h3]
      simp [ftFold]
  · have hk' : ¬(key = fp) := fun h => hk h.symm
    simp only [if_neg hk]
    rw [if_neg hk'] at h1 h2 h3
    exact ⟨h1, h2, h3⟩

mutual
theorem processField_merged (value : JsValue) :
    ∀ st path key, inv st →
      MergedAt st (processField st value path) (eventsV value path key) key :=
  fun st path key hinv => by
  cases value with
  | vNull => exact MergedAt_refl st key
  | vUndefined => exact MergedAt_refl st key
  | vObjectId => exact registerOid_merged st (dotJoin path) key hinv
  | vObject fs => exact processEntries_merged fs st path key hinv
  | vArray items => exact processItems_merged items st path key hinv
  | vDate => exact MergedAt_refl st key
  | vBuffer => exact MergedAt_refl st key
  | vString s => exact MergedAt_refl st key
  | vNumber n => exact MergedAt_refl st key
  | vBool b => exact MergedAt_refl st key

theorem processEntries_merged (fs : JsFields) :
    ∀ st path key, inv st →
      MergedAt st (processEntries st fs path) (eventsF fs path key) key :=
  fun st path key hinv => by
  cases fs with
  | nil => exact MergedAt_refl st key
  | cons k v rest =>
      by_cases hskip : (k = "buffer" && isArray12 v) = true
      · simp only [processEntries, eventsF, if_pos hskip]
        exact processEntries_merged rest st path key hinv
      · simp only [processEntries, eventsF, if_neg hskip]
        have m1 := observe_merged st (dotJoin (path ++ [k])) v key hinv
        have hinv1 := observe_inv st (dotJoin (path ++ [k])) v hinv
        have m2 := processField_merged v (observe st (dotJoin (path ++ [k])) v)
          (path ++ [k]) key hinv1
        have hinv2 := processField_inv v (observe st (dotJoin (path ++ [k])) v)
          (path ++ [k]) hinv1
        have m3 := processEntries_merged rest
          (processField (observe st (dotJoin (path ++ [k])) v) v (path ++ [k]))
          path key hinv2
        exact MergedAt_trans (MergedAt_trans m1 m2) m3

theorem processItems_merged (items : JsItems) :
    ∀ st path key, inv st →
      MergedAt st (processItems st items path) (eventsI items path key) key :=
  fun st path key hinv => by
  cases items with
  | nil => exact MergedAt_refl st key
  | cons x rest =>
      have m1 := processField_merged x st path key hinv
      have m2 := processItems_merged rest (processField st x path) path key
        (processField_inv x st path hinv)
      exact MergedAt_trans m1 m2
end

theorem processDoc_merged (doc : JsFields) :
    ∀ st key, inv st →
      MergedAt st (processDoc st doc) (eventsDoc doc key) key :=
  fun st key hinv => by
  cases doc with
  | nil => exact MergedAt_refl st key
  | cons k v rest =>
      by_cases hk : k = "_id"
      · simp only [processDoc, eventsDoc, if_pos hk]
        exact processDoc_merged rest st key hinv
      · simp only [processDoc, eventsDoc, if_neg hk]
        have m1 := observe_merged st k v key hinv
        have hinv1 := observe_inv st k v hinv
        have m2 := processField_merged v (observe st k v) [k] key hinv1
        have hinv2 := processField_inv v (observe st k v) [k] hinv1
        have m3 := processDoc_merged rest (processField (observe st k v) v [k])
          key hinv2
        exact MergedAt_trans (MergedAt_trans m1 m2) m3

theorem accumFold_merged (docs : List JsFields) :
    ∀ st key, inv st →
      MergedAt st (docs.foldl processDoc st) (eventsDocs docs key) key := by
  induction docs with
  | nil => intro st key hinv; exact MergedAt_refl st key
  | cons d rest ih =>
      intro st key hinv
      have m1 := processDoc_merged d st key hinv
      have m2 := ih (processDoc st d) key (processDoc_inv d st hinv)
      have := MergedAt_trans m1 m2
      simpa [eventsDocs] using this

theorem accumState_fields (docs : List JsFields) (key : String) :
    alGet (accumState docs).fields key = mergeTypes none (eventsDocs docs key) :=
  (accumFold_merged docs emptyState key emptyState_inv).1

theorem accumState_uniqueValues (docs : List JsFields) (key : String) :
    alGet (accumState docs).uniqueValues key =
      mergeUV none (eventsDocs docs key) :=
  (accumFold_merged docs emptyState key emptyState_inv).2.1

theorem accumState_fieldTypes (docs : List JsFields) (key : String) :
    alGet (accumState docs).fieldTypes key = ftFold none (eventsDocs docs key) :=
  (accumFold_merged docs emptyState key emptyState_inv).2.2

theorem spreadRequired_required (o : Option FieldInfo) (req : Bool) :
    (spreadRequired o req).required = some req := by
  cases o with
  | none => rfl
  | some fi => cases fi; rfl

theorem finalizeEntry_required (documents : List JsFields) (st : SampState)
    (key : String) (types : List String) :
    (finalizeEntry documents st key types).required =
      some (documents.all (fun d => docKeyDefined d key)) := by
  unfold finalizeEntry
  split
  · split
    · rfl
    · exact spreadRequired_required _ _
  · exact spreadRequired_required _ _

theorem alGet_map_entry {α β : Type} (f : String → α → β)
    (l : List (String × α)) (k : String) :
    alGet (l.map (fun p => (p.1, f p.1 p.2))) k = (alGet l k).map (f k) := by
  induction l with
  | nil => rfl
  | cons p rest ih =>
      by_cases h : p.1 = k
      · subst h
        simp [alGet]
      · simp [alGet, h, ih]

theorem alGet_schemaFieldsOf (documents : List JsFields) (st : SampState)
    (key : String) :
    alGet (schemaFieldsOf documents st) key =
      (alGet st.fields key).map (finalizeEntry documents st key) := by
  unfold schemaFieldsOf
  exact alGet_map_entry (finalizeEntry documents st) st.fields key

theorem mem_jsSetAdd (x y : String) (s : List String) :
    x ∈ jsSetAdd s y ↔ x ∈ s ∨ x = y := by
  unfold jsSetAdd
  split
  · rename_i hy
    constructor
    · exact Or.inl
    · rintro (hx | rfl)
      · exact hx
      · exact hy
  · simp [List.mem_append]

theorem mem_typesFold (t : String) (evs : List ObsEvent) :
    ∀ init, t ∈ typesFold init evs ↔ t ∈ init ∨ t ∈ evs.map eventType := by
  induction evs with
  | nil => intro init; simp [typesFold]
  | cons e r ih =>
      intro init
      have h0 : typesFold init (e :: r) =
          typesFold (jsSetAdd init (eventType e)) r := rfl
      rw [h0, ih (jsSetAdd init (eventType e)), mem_jsSetAdd]
      simp only [List.map_cons, List.mem_cons]
      tauto

theorem uvFold_eq (evs : List ObsEvent) :
    ∀ init, uvFold init evs = (evs.filterMap eventString).foldl jsSetAdd init := by
  induction evs with
  | nil => intro init; rfl
  | cons e r ih =>
      intro init
      have h0 : uvFold init (e :: r) =
          uvFold (match eventString e with
            | some s => jsSetAdd init s
            | none => init) r := rfl
      rw [h0]
      cases hs : eventString e <;>
        simp only [hs, List.filterMap_cons, ih, List.foldl_cons]

theorem uvFold_nil_eq_dedup (documents : List JsFields) (key : String) :
    uvFold [] (eventsDocs documents key) =
      jsDedup (stringsObserved documents key) := by
  rw [uvFold_eq]
  rfl

theorem ftFold_char (evs : List ObsEvent) :
    ∀ o, ftFold o evs =
      if evs.any isOidEvent then some (finfo "ObjectId")
      else
        match o with
        | some x => some x
        | none => (firstObsValue evs).map getFieldType := by
  induction evs with
  | nil => intro o; cases o <;> simp [ftFold, firstObsValue]
  | cons e r ih =>
      intro o
      cases e with
      | oid =>
          have h0 : ftFold o (.oid :: r) = ftFold (some (finfo "ObjectId")) r := rfl
          rw [h0, ih]
          by_cases hr : r.any isOidEvent = true <;> simp [isOidEvent, hr]
      | obs v =>
          cases o with
          | some x =>
              have h0 : ftFold (some x) (.obs v :: r) = ftFold (some x) r := rfl
              rw [h0, ih]
              by_cases hr : r.any isOidEvent = true <;> simp [isOidEvent, hr]
          | none =>
              have h0 : ftFold none (.obs v :: r) =
                  ftFold (some (getFieldType v)) r := rfl
              rw [h0, ih]
              by_cases hr : r.any isOidEvent = true <;>
                simp [isOidEvent, hr, firstObsValue]

theorem spreadRequired_type (o : Option FieldInfo) (req : Bool) :
    (spreadRequired o req).type = (o.getD (finfo "")).type := by
  cases o with
  | none => rfl
  | some fi => cases fi; rfl

theorem entry_eq_finalize (documents : List JsFields) (n : Nat)
    (name key : String) (fi : FieldInfo)
    (h : alGet (analyzeCollectionBySampling documents n name).fields key = some fi) :
    ∃ types, alGet (accumState documents).fields key = some types
      ∧ fi = finalizeEntry documents (accumState documents) key types := by
  unfold analyzeCollectionBySampling at h
  simp only [alGet_schemaFieldsOf, Option.map_eq_some'] at h
  obtain ⟨types, ht, hfi⟩ := h
  exact ⟨types, ht, hfi.symm⟩

theorem types_entry (documents : List JsFields) (key : String)
    (types : List String)
    (h : alGet (accumState documents).fields key = some types) :
    eventsDocs documents key ≠ []
      ∧ types = typesFold [] (eventsDocs documents key) := by
  rw [accumState_fields] at h
  cases hevs : eventsDocs documents key with
  | nil =>
      rw [hevs] at h
      exact Option.noConfusion h
  | cons e r =>
      rw [hevs] at h
      refine ⟨by simp, ?_⟩
      simpa [mergeTypes, typesFold] using h.symm

theorem uv_entry (documents : List JsFields) (key : String)
    (hne : eventsDocs documents key ≠ []) :
    alGet (accumState documents).uniqueValues key =
      some (jsDedup (stringsObserved documents key)) := by
  rw [accumState_uniqueValues, ← uvFold_nil_eq_dedup]
  cases hevs : eventsDocs documents key with
  | nil => exact absurd hevs hne
  | cons e r => simp [mergeUV]

/-- Claim C1, counterexample.  The claim says `required=true` iff the dotted
path resolves step by step to a defined, non-null value in every sampled
document.  On the single sampled document `{a: {b: 1}, s: null}` the code
gives the path `a.b` `required=false` although it resolves to a defined
non-null value in every document, and gives `s` `required=true` although it
resolves to `null` in every document. -/
theorem required_stepwise_resolution_counterexample :
    (dotJoin ["a", "b"] = "a.b"
      ∧ (alGet (analyzeCollectionBySampling docsNested 1 "c").fields "a.b").bind
          FieldInfo.required = some false
      ∧ docsNested.all (fun d => specResolvesDefined d ["a", "b"]) = true)
    ∧ ((alGet (analyzeCollectionBySampling docsNested 1 "c").fields "s").bind
        FieldInfo.required = some true
      ∧ docsNested.all (fun d => specResolvesDefined d ["s"]) = false) :=
  ⟨⟨rfl, rfl, rfl⟩, ⟨rfl, rfl⟩⟩

/-- Claim C1, amended.  For every path in the unified fields map, `required`
is `documents.every(doc => doc[key] !== undefined)`: the full dotted path is
used verbatim as a top-level key of each document, a present `null` counts
as defined, and nested dotted paths are not resolved step by step (so they
are `required=false` whenever no document has the dotted string as a literal
top-level key). -/
theorem required_is_flat_toplevel_lookup (documents : List JsFields)
    (n : Nat) (name key : String) (fi : FieldInfo)
    (h : alGet (analyzeCollectionBySampling documents n name).fields key = some fi) :
    fi.required = some (documents.all (fun d => docKeyDefined d key)) := by
  unfold analyzeCollectionBySampling at h
  simp only [alGet_schemaFieldsOf, Option.map_eq_some'] at h
  obtain ⟨types, -, rfl⟩ := h
  exact finalizeEntry_required _ _ _ _

/-- Witness for C1's amended theorem at the `status` field of the
three-document sample. -/
theorem required_is_flat_toplevel_lookup_witness :
    (FieldInfo.mk "string" (some true) none none none none).required =
      some (docs3.all (fun d => docKeyDefined d "status")) :=
  required_is_flat_toplevel_lookup docs3 3 "c" "status" _ rfl

/-- Claim C2, counterexample.  The claim says the 3-document sample
`{status:"active"}, {status:"inactive"}, {status:"active"}` yields type
`enum` with values `["active","inactive"]`; the code classifies `status` as
`string` (the enum branch needs `uniqueValues.length < documents.length *
0.5`, i.e. `2 < 1.5` here, which fails), so no `values` list is attached. -/
theorem three_doc_status_enum_counterexample :
    (alGet (analyzeCollectionBySampling docs3 3 "c").fields "status").map
        FieldInfo.type = some "string"
    ∧ (alGet (analyzeCollectionBySampling docs3 3 "c").fields "status").map
        FieldInfo.type ≠ some "enum"
    ∧ (alGet (analyzeCollectionBySampling docs3 3 "c").fields "status").bind
        FieldInfo.values = none := by
  refine ⟨rfl, ?_, rfl⟩
  intro h
  rw [show alGet (analyzeCollectionBySampling docs3 3 "c").fields "status" =
    some (.mk "string" (some true) none none none none) from rfl] at h
  simp [FieldInfo.type] at h

/-- Claim C2, amended.  For the 3-document sample `{status:"active"},
{status:"inactive"}, {status:"active"}` the unifier classifies `status` as
type `string` with `required=true`: the two distinct values pass the size
cap but fail the sample-size threshold `2 < 0.5 × 3`. -/
theorem three_doc_status_classified_string :
    alGet (analyzeCollectionBySampling docs3 3 "c").fields "status" =
      some (.mk "string" (some true) none none none none) := rfl

/-- Claim C7, counterexample.  The claim says `inferType` maps an absent
(`undefined`) input to `{type: null}`; the code's `value === null` test does
not match `undefined`, which falls through to the `typeof` switch's
`default` arm and yields `{type: unknown}`. -/
theorem undefined_maps_to_null_counterexample :
    (getFieldType .vUndefined).type = "unknown"
    ∧ (getFieldType .vUndefined).type ≠ "null" := by
  refine ⟨rfl, ?_⟩
  intro h
  simp [getFieldType, finfo, FieldInfo.type] at h

/-- Claim C7, amended.  `inferType` maps `null` to `{type: null}` but maps
an absent (`undefined`) value to `{type: unknown}`. -/
theorem null_and_undefined_inference :
    getFieldType .vNull = finfo "null"
    ∧ getFieldType .vUndefined = finfo "unknown" := ⟨rfl, rfl⟩

theorem itemsAllStrings_ja_map (l : List String) :
    itemsAllStrings (ja (l.map .vString)) = true := by
  induction l with
  | nil => rfl
  | cons s rest ih => simpa [ja, itemsAllStrings] using ih

theorem itemsStrings_ja_map (l : List String) :
    itemsStrings (ja (l.map .vString)) = l := by
  induction l with
  | nil => rfl
  | cons s rest ih => simp [ja, itemsStrings, ih]

theorem itemsLen_ja_map (l : List String) :
    itemsLen (ja (l.map .vString)) = l.length := by
  induction l with
  | nil => rfl
  | cons s rest ih => simp [ja, itemsLen, ih]

/-- Claim C6.  For every non-empty all-string array, `inferType` first
applies the enum detector (distinct count at most 10 and at least one
repeat) and returns `{type: enum, values: distinct values}` when it
qualifies; otherwise it returns `{type: array, items: <type of the first
element>}` — for an all-string array the first element's type is
`string`. -/
theorem string_array_enum_rule (l : List String) (h : l ≠ []) :
    getFieldType (.vArray (ja (l.map .vString))) =
      if (jsDedup l).length < l.length ∧ (jsDedup l).length ≤ 10 then
        .mk "enum" none none none (some (jsDedup l)) none
      else .mk "array" none (some (finfo "string")) none none none := by
  match l with
  | [] => exact absurd rfl h
  | s :: rest =>
      have h1 := itemsAllStrings_ja_map (s :: rest)
      have h2 := itemsStrings_ja_map (s :: rest)
      have h3 := itemsLen_ja_map (s :: rest)
      simp only [List.map_cons, ja] at h1 h2 h3
      show getFieldType (.vArray (.cons (.vString s) (ja (rest.map .vString)))) = _
      rw [getFieldType, if_pos h1]
      simp only [h2, h3]
      split <;> rfl

/-- Witness for C6 at the spec's scenario array `["x","y","x","z"]`: three
distinct values, four occurrences, classified enum with values
`["x","y","z"]`. -/
theorem string_array_enum_rule_witness :
    getFieldType (.vArray (ja ((["x", "y", "x", "z"] : List String).map .vString))) =
      .mk "enum" none none none (some ["x", "y", "z"]) none := by
  rw [string_array_enum_rule ["x", "y", "x", "z"] (by decide)]
  rfl

theorem nest_cases (v : JsValue) (hv : identifierShaped v = true) :
    ∀ ks : List String, (∃ fs, nest ks v = .vObject fs) ∨ nest ks v = .vObjectId := by
  intro ks
  cases ks with
  | nil =>
      cases v with
      | vObjectId => exact Or.inr rfl
      | vObject fs => exact Or.inl ⟨fs, rfl⟩
      | vNull => exact absurd hv (by simp [identifierShaped])
      | vUndefined => exact absurd hv (by simp [identifierShaped])
      | vString s => exact absurd hv (by simp [identifierShaped])
      | vNumber n => exact absurd hv (by simp [identifierShaped])
      | vBool b => exact absurd hv (by simp [identifierShaped])
      | vDate => exact absurd hv (by simp [identifierShaped])
      | vBuffer => exact absurd hv (by simp [identifierShaped])
      | vArray l => exact absurd hv (by simp [identifierShaped])
  | cons k ks => exact Or.inl ⟨_, rfl⟩

theorem getFieldType_singleton_obj (k : String) (w : JsValue)
    (hA : ∀ l, w ≠ .vArray l) (hS : ∀ s, w ≠ .vString s)
    (h12 : isArray12 w = false) :
    getFieldType (.vObject (.cons k w .nil)) =
      .mk "object" none none (some (.cons k (getFieldType w) .nil)) none none := by
  cases w with
  | vArray l => exact absurd rfl (hA l)
  | vString s => exact absurd rfl (hS s)
  | vNull =>
      by_cases hk : k = "buffer" <;> by_cases hk2 : k = "_bsontype" <;>
        simp [getFieldType, bufferArray12, bsontypeObjectID, lookupFields,
          getProps, isArray12, hk, hk2]
  | vUndefined =>
      by_cases hk : k = "buffer" <;> by_cases hk2 : k = "_bsontype" <;>
        simp [getFieldType, bufferArray12, bsontypeObjectID, lookupFields,
          getProps, isArray12, hk, hk2]
  | vNumber n =>
      by_cases hk : k = "buffer" <;> by_cases hk2 : k = "_bsontype" <;>
        simp [getFieldType, bufferArray12, bsontypeObjectID, lookupFields,
          getProps, isArray12, hk, hk2]
  | vBool b =>
      by_cases hk : k = "buffer" <;> by_cases hk2 : k = "_bsontype" <;>
        simp [getFieldType, bufferArray12, bsontypeObjectID, lookupFields,
          getProps, isArray12, hk, hk2]
  | vDate =>
      by_cases hk : k = "buffer" <;> by_cases hk2 : k = "_bsontype" <;>
        simp [getFieldType, bufferArray12, bsontypeObjectID, lookupFields,
          getProps, isArray12, hk, hk2]
  | vBuffer =>
      by_cases hk : k = "buffer" <;> by_cases hk2 : k = "_bsontype" <;>
        simp [getFieldType, bufferArray12, bsontypeObjectID, lookupFields,
          getProps, isArray12, hk, hk2]
  | vObjectId =>
      by_cases hk : k = "buffer" <;> by_cases hk2 : k = "_bsontype" <;>
        simp [getFieldType, bufferArray12, bsontypeObjectID, lookupFields,
          getProps, isArray12, hk, hk2]
  | vObject fs =>
      by_cases hk : k = "buffer" <;> by_cases hk2 : k = "_bsontype" <;>
        simp [getFieldType, bufferArray12, bsontypeObjectID, lookupFields,
          getProps, isArray12, hk, hk2]

/-- Claim C5.  Every identifier-shaped value (native ObjectId instance, or
an object whose `buffer` property is a 12-element byte sequence) is
classified `{type: ObjectId}` by the type inferencer — never `object` or
`array` — at any nesting depth: wrapping it under arbitrarily many object
levels still yields `ObjectId` at the corresponding property path, because
the identifier check precedes the generic object and array handling. -/
theorem identifier_shape_always_objectid (v : JsValue)
    (hv : identifierShaped v = true) (ks : List String) :
    fieldAt (getFieldType (nest ks v)) ks = some (finfo "ObjectId") := by
  induction ks with
  | nil =>
      cases v with
      | vObjectId => rfl
      | vObject fs =>
          have hb : bufferArray12 fs = true := by simpa [identifierShaped] using hv
          simp [nest, getFieldType, hb, fieldAt]
      | vNull => exact absurd hv (by simp [identifierShaped])
      | vUndefined => exact absurd hv (by simp [identifierShaped])
      | vString s => exact absurd hv (by simp [identifierShaped])
      | vNumber n => exact absurd hv (by simp [identifierShaped])
      | vBool b => exact absurd hv (by simp [identifierShaped])
      | vDate => exact absurd hv (by simp [identifierShaped])
      | vBuffer => exact absurd hv (by simp [identifierShaped])
      | vArray l => exact absurd hv (by simp [identifierShaped])
  | cons k ks ih =>
      have hshape := nest_cases v hv ks
      have hA : ∀ l, nest ks v ≠ .vArray l := by
        rcases hshape with ⟨fs', hw⟩ | hw <;> rw [hw] <;> intro l hcon <;>
          exact JsValue.noConfusion hcon
      have hS : ∀ s, nest ks v ≠ .vString s := by
        rcases hshape with ⟨fs', hw⟩ | hw <;> rw [hw] <;> intro s hcon <;>
          exact JsValue.noConfusion hcon
      have h12 : isArray12 (nest ks v) = false := by
        rcases hshape with ⟨fs', hw⟩ | hw <;> rw [hw] <;> rfl
      show fieldAt (getFieldType (.vObject (.cons k (nest ks v) .nil))) (k :: ks) = _
      rw [getFieldType_singleton_obj k (nest ks v) hA hS h12]
      simpa [fieldAt, FieldInfo.properties, lookupProps] using ih

/-- Witness for C5: the structural identifier shape nested three object
levels deep is still classified ObjectId at that path. -/
theorem identifier_shape_always_objectid_witness :
    identifierShaped oidShaped = true
    ∧ fieldAt (getFieldType (nest ["a", "b", "c"] oidShaped)) ["a", "b", "c"] =
        some (finfo "ObjectId") :=
  ⟨rfl, identifier_shape_always_objectid oidShaped rfl ["a", "b", "c"]⟩

/-- Claim C3, counterexample.  The claim says a string field with exactly
one observed value and no repeats is never classified enum; in the sample
`{status:"a"}, {x:1}, {x:2}` the field `status` produces exactly one
observation event (one occurrence of one value, so no repeat), yet the
unifier classifies it `enum` with values `["a"]` (the code checks only
`|U| ≤ 10` and `|U| < 0.5 × sampleDocumentCount`, i.e. `1 < 1.5`; it has no
repeated-occurrence requirement). -/
theorem single_value_no_repeat_enum_counterexample :
    eventsDocs docsSingleObs "status" = [.obs (.vString "a")]
    ∧ alGet (analyzeCollectionBySampling docsSingleObs 3 "c").fields "status" =
        some (.mk "enum" (some false) none none (some ["a"]) none) :=
  ⟨rfl, rfl⟩

/-- Claim C3, amended.  In the per-document-sample unifier variant a string
field (one with at least one observed string value, whose recorded
`fieldTypes` entry is not itself an array-derived enum) is finalised as
enum iff its distinct observed string values `U` satisfy `|U| ≤ 10` and
`|U| < 0.5 × sampleDocumentCount`.  There is no repeated-occurrence
requirement, so a field with exactly one observed value and no repeats IS
classified enum whenever the sample has more than two documents. -/
theorem sampling_enum_needs_no_repeat (documents : List JsFields) (n : Nat)
    (name key : String) (fi : FieldInfo)
    (h : alGet (analyzeCollectionBySampling documents n name).fields key = some fi)
    (hstr : "string" ∈ (eventsDocs documents key).map eventType)
    (hft : ((ftFold none (eventsDocs documents key)).getD (finfo "")).type ≠ "enum") :
    fi.type = "enum"
      ↔ ((jsDedup (stringsObserved documents key)).length ≤ 10
          ∧ 2 * (jsDedup (stringsObserved documents key)).length
              < documents.length) := by
  obtain ⟨types, ht, hfi⟩ := entry_eq_finalize documents n name key fi h
  obtain ⟨hne, htypes⟩ := types_entry documents key types ht
  have huv := uv_entry documents key hne
  have hcontains : types.contains "string" = true := by
    rw [htypes]
    simp only [List.elem_iff]
    rw [mem_typesFold]
    exact Or.inr hstr
  have hcond : (types.contains "string"
      && (alGet (accumState documents).uniqueValues key).isSome) = true := by
    rw [hcontains, huv]
    rfl
  rw [hfi]
  unfold finalizeEntry
  rw [if_pos hcond, huv]
  simp only [Option.getD_some]
  by_cases hth : (jsDedup (stringsObserved documents key)).length ≤ 10
      ∧ 2 * (jsDedup (stringsObserved documents key)).length < documents.length
  · rw [if_pos hth]
    simp [FieldInfo.type, hth]
  · rw [if_neg hth]
    constructor
    · intro htype
      rw [spreadRequired_type, accumState_fieldTypes] at htype
      exact absurd htype hft
    · intro hc
      exact absurd hc hth

/-- Witness for C3's amended theorem at the single-observation field
`status` of `docsSingleObs`. -/
theorem sampling_enum_needs_no_repeat_witness :
    (FieldInfo.mk "enum" (some false) none none (some ["a"]) none).type = "enum"
      ↔ ((jsDedup (stringsObserved docsSingleObs "status")).length ≤ 10
          ∧ 2 * (jsDedup (stringsObserved docsSingleObs "status")).length
              < docsSingleObs.length) :=
  sampling_enum_needs_no_repeat docsSingleObs 3 "c" "status" _ rfl
    (by decide) (by decide)

/-- Claim C4, counterexample.  The claim says the enum rule is applied
exactly when the path's observed values are all strings.  In the sample
`{x:1}, {x:"a"}, {x:2}, {x:3}` the path `x` is observed as
number, string, number, number — not all strings, and the type recorded at
first observation is `number` — yet the unifier applies the enum rule and
finalises `x` as `enum` with values `["a"]` (the code tests
`types.has('string')`, i.e. at least one string observation, not all). -/
theorem enum_rule_not_all_strings_counterexample :
    (eventsDocs docsMixed "x").map eventType
        = ["number", "string", "number", "number"]
    ∧ alGet (analyzeCollectionBySampling docsMixed 4 "c").fields "x" =
        some (.mk "enum" (some true) none none (some ["a"]) none) :=
  ⟨rfl, rfl⟩

/-- Claim C4, amended.  In the unifier's type-finalisation step the
string-enum rule produces the finalized entry exactly when at least one
observed value of the path is a string and the two size thresholds hold
(`|U| ≤ 10` and `|U| < 0.5 ×` sample size); in every other case — no
string observed, or a string observed but a threshold fails — the
finalized entry is the recorded `fieldTypes` entry with `required`
attached.  That record is the type of the first observation —
first-writer wins, no majority vote — except that an ObjectId-shaped
observation overwrites it unconditionally; since the record can itself be
an array-derived enum, a final type of `enum` does not by itself mean the
string-enum rule fired.  The theorem is a complete case analysis: the
finalized entry equals the string-enum result under the condition and the
spread of the record otherwise. -/
theorem type_finalization_rule (documents : List JsFields) (n : Nat)
    (name key : String) (fi : FieldInfo)
    (h : alGet (analyzeCollectionBySampling documents n name).fields key = some fi) :
    (fi =
      if "string" ∈ (eventsDocs documents key).map eventType
          ∧ (jsDedup (stringsObserved documents key)).length ≤ 10
          ∧ 2 * (jsDedup (stringsObserved documents key)).length
              < documents.length then
        .mk "enum" (some (documents.all (fun d => docKeyDefined d key)))
          none none (some (jsDedup (stringsObserved documents key))) none
      else
        spreadRequired (ftFold none (eventsDocs documents key))
          (documents.all (fun d => docKeyDefined d key)))
    ∧ ftFold none (eventsDocs documents key) =
        (if (eventsDocs documents key).any isOidEvent then some (finfo "ObjectId")
          else (firstObsValue (eventsDocs documents key)).map getFieldType) := by
  obtain ⟨types, ht, hfi⟩ := entry_eq_finalize documents n name key fi h
  obtain ⟨hne, htypes⟩ := types_entry documents key types ht
  have huv := uv_entry documents key hne
  constructor
  · by_cases hcond : "string" ∈ (eventsDocs documents key).map eventType
        ∧ (jsDedup (stringsObserved documents key)).length ≤ 10
        ∧ 2 * (jsDedup (stringsObserved documents key)).length
            < documents.length
    · rw [if_pos hcond]
      obtain ⟨hstr, h10, hn⟩ := hcond
      have hcontains : types.contains "string" = true := by
        rw [htypes]
        simp only [List.elem_iff]
        rw [mem_typesFold]
        exact Or.inr hstr
      have hcondB : (types.contains "string"
          && (alGet (accumState documents).uniqueValues key).isSome) = true := by
        rw [hcontains, huv]
        rfl
      rw [hfi]
      unfold finalizeEntry
      rw [if_pos hcondB, huv]
      simp only [Option.getD_some]
      rw [if_pos ⟨h10, hn⟩]
    · rw [if_neg hcond]
      by_cases hstr : "string" ∈ (eventsDocs documents key).map eventType
      · have hth : ¬((jsDedup (stringsObserved documents key)).length ≤ 10
            ∧ 2 * (jsDedup (stringsObserved documents key)).length
                < documents.length) := fun hh => hcond ⟨hstr, hh.1, hh.2⟩
        have hcontains : types.contains "string" = true := by
          rw [htypes]
          simp only [List.elem_iff]
          rw [mem_typesFold]
          exact Or.inr hstr
        have hcondB : (types.contains "string"
            && (alGet (accumState documents).uniqueValues key).isSome) = true := by
          rw [hcontains, huv]
          rfl
        rw [hfi]
        unfold finalizeEntry
        rw [if_pos hcondB, huv]
        simp only [Option.getD_some]
        rw [if_neg hth, accumState_fieldTypes]
      · have hcontains : types.contains "string" = false := by
          rw [htypes]
          by_contra hc
          rw [Bool.not_eq_false] at hc
          have hmem : "string" ∈ typesFold [] (eventsDocs documents key) := by
            simpa [List.elem_iff] using hc
          rcases (mem_typesFold "string" (eventsDocs documents key) []).mp hmem
            with hemp | hmap
          · simp at hemp
          · exact hstr hmap
        rw [hfi]
        unfold finalizeEntry
        rw [if_neg (by rw [hcontains]; simp), accumState_fieldTypes]
  · exact ftFold_char (eventsDocs documents key) none

/-- Witness for C4's amended theorem, exercising the
string-observed-but-threshold-fails region: for docs3's `status` the
condition fails (`2 × 2 < 3` is false) and the finalized entry is the
spread of the recorded first-observation type `string`. -/
theorem type_finalization_rule_witness :
    FieldInfo.mk "string" (some true) none none none none =
      (if "string" ∈ (eventsDocs docs3 "status").map eventType
          ∧ (jsDedup (stringsObserved docs3 "status")).length ≤ 10
          ∧ 2 * (jsDedup (stringsObserved docs3 "status")).length
              < docs3.length then
        FieldInfo.mk "enum" (some (docs3.all (fun d => docKeyDefined d "status")))
          none none (some (jsDedup (stringsObserved docs3 "status"))) none
      else
        spreadRequired (ftFold none (eventsDocs docs3 "status"))
          (docs3.all (fun d => docKeyDefined d "status"))) :=
  (type_finalization_rule docs3 3 "c" "status" _ rfl).1

/-- Claim C9.  Every path that appears as a key of the unified fields map
was reached by the walker in at least one sampled document: `eventsDoc d
key` lists the registration events the walker produces for `key` while
walking document `d`, and a key can only enter the map through such an
event. -/
theorem no_fabricated_paths (documents : List JsFields) (n : Nat)
    (name key : String) (fi : FieldInfo)
    (h : alGet (analyzeCollectionBySampling documents n name).fields key = some fi) :
    ∃ d ∈ documents, eventsDoc d key ≠ [] := by
  obtain ⟨types, ht, -⟩ := entry_eq_finalize documents n name key fi h
  obtain ⟨hne, -⟩ := types_entry documents key types ht
  by_contra hcon
  push_neg at hcon
  exact hne (by
    simp only [eventsDocs, List.flatMap_eq_nil_iff]
    exact hcon)

/-- Witness for C9 at the `status` field of the three-document sample. -/
theorem no_fabricated_paths_witness :
    ∃ d ∈ docs3, eventsDoc d "status" ≠ [] :=
  no_fabricated_paths docs3 3 "c" "status"
    (.mk "string" (some true) none none none none) rfl

/-- Claim C8.  When the Mongoose-model lookup throws or finds no model,
`analyzeCollection` falls back to the `$jsonSchema` validator lookup; when
that one throws or finds nothing too, it falls back to sampling.  The
failures are caught locally (the embedding of `analyzeCollection` is a
total function of the lookup outcomes, so no lookup failure reaches the
caller). -/
theorem lookup_failures_fall_back (env : CollectionEnv) (name : String)
    (h1 : env.mongooseModel = .throws ∨ env.mongooseModel = .notFound) :
    (∀ j, env.validatorJsonSchema = .found j →
      analyzeCollection env name = convertJsonSchema j name)
    ∧ ((env.validatorJsonSchema = .throws
          ∨ env.validatorJsonSchema = .notFound) →
      analyzeCollection env name =
        analyzeCollectionBySampling env.documents env.countDocuments name) := by
  constructor
  · intro j hj
    rcases h1 with hm | hm <;> simp [analyzeCollection, hm, hj]
  · intro h2
    rcases h1 with hm | hm <;> rcases h2 with hv | hv <;>
      simp [analyzeCollection, hm, hv]

/-- Witness for C8: with both lookups throwing, the result is the sampling
analysis. -/
theorem lookup_failures_fall_back_witness :
    analyzeCollection envBothThrow "c" =
      analyzeCollectionBySampling envBothThrow.documents
        envBothThrow.countDocuments "c" :=
  (lookup_failures_fall_back envBothThrow "c" (Or.inl rfl)).2 (Or.inl rfl)

/-- Claim C10.  A schema derived from a declared source always reports
`totalDocuments = 0`: both `convertMongooseSchema` and `convertJsonSchema`
hard-code 0, while only `analyzeCollectionBySampling` reports the queried
collection count. -/
theorem declared_schema_totaldocuments_zero :
    (∀ (m : MongooseSchema) (name : String),
      (convertMongooseSchema m name).totalDocuments = 0)
    ∧ (∀ (j : JsonSchema) (name : String),
      (convertJsonSchema j name).totalDocuments = 0)
    ∧ (∀ (documents : List JsFields) (n : Nat) (name : String),
      (analyzeCollectionBySampling documents n name).totalDocuments = n) :=
  ⟨fun _ _ => rfl, fun _ _ => rfl, fun _ _ _ => rfl⟩

end SchemaService
